import Mathlib

/-!
Verification development for the Honey/Potion template runtime
(`src/dist/main.js`): a shallow embedding of its template tokenizer,
substitution engine, default `token` filter, filter registry, reactive
proxy `set` trap, event-argument parser and DOM attribute differ,
together with theorems settling the specification claims.

Modelling conventions:
* JavaScript values are embedded as `JSValue`.  Numbers are ideal
  integers (`Int`): the claims under study never involve non-integer or
  non-finite numbers, and floating point is outside the embedding.
* Object identity (reference equality of two distinct live objects) is
  not modelled; theorems that would depend on it carry hypotheses
  excluding object-to-object comparisons.
* The prototype chain is not modelled: property reads are own-property
  reads, which is exact for the plain data objects the library consumes.
* `substitute` in the source reads and writes two module-level pieces of
  state: `uniqueCounter` (read and incremented) and `localContexts`
  (write-only inside `substitute`).  The embedding therefore threads the
  counter and returns the list of newly stored `(id, context)` pairs.
* The recursion of `substitute` on reconstructed inner templates is
  embedded with an explicit fuel parameter that every recursive call
  decreases; all theorems quantify over the fuel or pick a sufficient
  concrete amount.
-/

namespace Honey

/-- Embedded JavaScript values (integers model the numbers used by the
claims; functions and arrays are not needed by any claim). -/
inductive JSValue where
  | null
  | undefined
  | bool (b : Bool)
  | num (n : Int)
  | str (s : String)
  | obj (fields : List (String × JSValue))
  deriving Repr

/-- `typeof` on embedded values; note `typeof null` is `"object"`. -/
def jsTypeof : JSValue → String
  | .undefined => "undefined"
  | .null => "object"
  | .bool _ => "boolean"
  | .num _ => "number"
  | .str _ => "string"
  | .obj _ => "object"

/-- String coercion as performed by `output += value` in the source. -/
def jsToString : JSValue → String
  | .str s => s
  | .num n => toString n
  | .bool b => if b then "true" else "false"
  | .null => "null"
  | .undefined => "undefined"
  | .obj _ => "[object Object]"

/-- JavaScript truthiness. -/
def truthy : JSValue → Bool
  | .null | .undefined => false
  | .bool b => b
  | .num n => !(n == 0)
  | .str s => !(s == "")
  | .obj _ => true

/-- Association-list lookup used to model own-property reads of plain
objects (first occurrence wins; real JS objects never hold duplicates). -/
def getField : List (String × JSValue) → String → Option JSValue
  | [], _ => none
  | (k, v) :: fs, key => if k = key then some v else getField fs key

/-- Property write on a plain object: updates the value in place if the
key exists (keeping its position) and appends it otherwise, exactly like
a JS property write with respect to enumeration order. -/
def setField : List (String × JSValue) → String → JSValue → List (String × JSValue)
  | [], key, v => [(key, v)]
  | (k, w) :: fs, key, v =>
      if k = key then (k, v) :: fs else (k, w) :: setField fs key v

/-- `Object.assign(base, src)` field by field. -/
def assignFields (base : List (String × JSValue)) (src : List (String × JSValue)) :
    List (String × JSValue) :=
  src.foldl (fun acc kv => setField acc kv.1 kv.2) base

/-! ### Character classes and basic string helpers

The source's regular expressions use `\s`, `[a-z0-9_$]` (with the `i`
flag), `[\.a-z0-9_]`, `[a-zA-Z0-9-]`; these classes are reproduced
below.  All string manipulation works on the underlying `List Char`. -/

/-- ASCII slice of the JS `\s` class (sufficient for the source's
delimiters and markup). -/
def isJsWs (c : Char) : Bool :=
  c == ' ' || c == '\t' || c == '\n' || c == '\r' ||
    c == Char.ofNat 0x0b || c == Char.ofNat 0x0c

/-- First character of a token name: `[a-z0-9_$]` with the `i` flag. -/
def isNameStartChar (c : Char) : Bool :=
  c.isAlpha || c.isDigit || c == '_' || c == '$'

/-- Continuation characters of a token name: `[\.a-z0-9_]` with `i`. -/
def isNameChar (c : Char) : Bool :=
  c.isAlpha || c.isDigit || c == '_' || c == '.'

/-- Tag-name characters of the key-injection pattern `[a-zA-Z0-9-]`. -/
def isTagChar (c : Char) : Bool :=
  c.isAlpha || c.isDigit || c == '-'

/-- JS `String.prototype.trim` on the character list (whitespace from
both ends). -/
def jsTrimList (l : List Char) : List Char :=
  ((l.dropWhile isJsWs).reverse.dropWhile isJsWs).reverse

/-- JS `String.prototype.trim`. -/
def strTrim (s : String) : String := String.mk (jsTrimList s.data)

/-- `attr.name.startsWith("@")`-style single-character test. -/
def startsWithChar (s : String) (c : Char) : Bool :=
  match s.data with
  | c0 :: _ => c0 == c
  | [] => false

/-! ### Tokenizer (`tokenizeTemplate`, main.js lines 126-161)

The scanner reproduces
`new RegExp(escape(start) ++ "\\s*([!\\/]?)\\s*(" ++ path ++ ")\\s*" ++ escape(end), "gi")`
with the default settings `start = "["`, `end = "]"`,
`path = [a-z0-9_$][\.a-z0-9_]*`: repeated `exec` finds, left to right,
non-overlapping matches; the text between matches becomes static
segments, and a nonempty remainder becomes a final static segment. -/

/-- A template segment: static text, or a directive token with its flag
(`""` for an opening token, `"!"` for the reserved flag, `"/"` for a
closing token) and its captured name. -/
inductive Tok where
  | static (s : String)
  | tok (flag : String) (name : String)
  deriving Repr, DecidableEq

/-- Whether a segment is static text. -/
def isStaticTok : Tok → Bool
  | .static _ => true
  | .tok _ _ => false

/-- The optional one-character flag group `([!\/]?)`. -/
def flagSplit (l : List Char) : String × List Char :=
  match l with
  | c :: cs => if c == '!' || c == '/' then (String.mk [c], cs) else ("", l)
  | [] => ("", [])

/-- Consume one expected literal character. -/
def expectChar (c : Char) (l : List Char) : Option (List Char) :=
  match l with
  | c0 :: rest => if c0 = c then some rest else none
  | [] => none

/-- Match the name group `([a-z0-9_$][\.a-z0-9_]*)` (case-insensitive),
greedily; returns the captured name and the remaining input. -/
def nameSplit (l : List Char) : Option (String × List Char) :=
  match l with
  | c :: cs =>
      if isNameStartChar c then
        some (String.mk (c :: cs.takeWhile isNameChar), cs.dropWhile isNameChar)
      else none
  | [] => none

/-- Attempt to match the token pattern at the head of the input.
Returns the captured flag, the captured name and the input past the
closing delimiter.  The pattern's quantifiers need no backtracking
search here because the whitespace, flag, name and delimiter character
classes are mutually disjoint. -/
def tryMatch (l : List Char) : Option (String × String × List Char) :=
  match expectChar '[' l with
  | none => none
  | some r1 =>
    let p := flagSplit (r1.dropWhile isJsWs)
    match nameSplit (p.2.dropWhile isJsWs) with
    | none => none
    | some (nm, r3) =>
      match expectChar ']' (r3.dropWhile isJsWs) with
      | none => none
      | some r4 => some (p.1, nm, r4)

theorem length_dropWhile_le (p : Char → Bool) (l : List Char) :
    (l.dropWhile p).length ≤ l.length := by
  induction l with
  | nil => simp [List.dropWhile]
  | cons c cs ih =>
      by_cases h : p c
      · simp [List.dropWhile, h]; omega
      · simp [List.dropWhile, h]

theorem flagSplit_length_le (l : List Char) : (flagSplit l).2.length ≤ l.length := by
  cases l with
  | nil => simp [flagSplit]
  | cons c cs =>
      by_cases h : (c == '!' || c == '/') = true
      · simp [flagSplit, h]
      · simp [flagSplit, h]

theorem expectChar_length {c : Char} {l r : List Char}
    (h : expectChar c l = some r) : r.length < l.length := by
  cases l with
  | nil => simp [expectChar] at h
  | cons c0 rest =>
      by_cases h0 : c0 = c
      · simp only [expectChar, if_pos h0, Option.some.injEq] at h
        subst h
        simp
      · simp [expectChar, h0] at h

theorem nameSplit_length {l : List Char} {nm : String} {r : List Char}
    (h : nameSplit l = some (nm, r)) : r.length < l.length := by
  cases l with
  | nil => simp [nameSplit] at h
  | cons c cs =>
      by_cases h0 : isNameStartChar c = true
      · simp only [nameSplit, if_pos h0, Option.some.injEq] at h
        have hr : cs.dropWhile isNameChar = r := congrArg Prod.snd h
        subst hr
        have := length_dropWhile_le isNameChar cs
        simp
        omega
      · simp [nameSplit, h0] at h

theorem tryMatch_length {l : List Char} {f n : String} {r : List Char}
    (h : tryMatch l = some (f, n, r)) : r.length < l.length := by
  unfold tryMatch at h
  rcases h1 : expectChar '[' l with _ | r1
  · simp [h1] at h
  · simp only [h1] at h
    rcases h2 : nameSplit
        ((flagSplit (r1.dropWhile isJsWs)).2.dropWhile isJsWs) with _ | ⟨nm, r3⟩
    · simp [h2] at h
    · simp only [h2] at h
      rcases h3 : expectChar ']' (r3.dropWhile isJsWs) with _ | r4
      · simp [h3] at h
      · simp only [h3] at h
        injection h with h4
        have hr : r4 = r := congrArg (fun x => x.2.2) h4
        subst hr
        have b1 : r4.length < (r3.dropWhile isJsWs).length := expectChar_length h3
        have b2 : (r3.dropWhile isJsWs).length ≤ r3.length := length_dropWhile_le _ _
        have b3 : r3.length <
            ((flagSplit (r1.dropWhile isJsWs)).2.dropWhile isJsWs).length :=
          nameSplit_length h2
        have b4 : ((flagSplit (r1.dropWhile isJsWs)).2.dropWhile isJsWs).length ≤
            (flagSplit (r1.dropWhile isJsWs)).2.length := length_dropWhile_le _ _
        have b5 : (flagSplit (r1.dropWhile isJsWs)).2.length ≤
            (r1.dropWhile isJsWs).length := flagSplit_length_le _
        have b6 : (r1.dropWhile isJsWs).length ≤ r1.length := length_dropWhile_le _ _
        have b7 : r1.length < l.length := expectChar_length h1
        omega

/-- The left-to-right scan of repeated `pattern.exec`: `acc` holds the
(reversed) static text accumulated since the last match.  The scan is
driven structurally by a step budget; the budget-exhausted clause
coincides with the end-of-input clause (flush the pending static text),
and by `tryMatch_length` every scan step consumes at least one input
character, so a budget of `l.length` never runs out early. -/
def tokenizeAux : Nat → List Char → List Char → List Tok
  | fuel + 1, c :: rest, acc =>
      (match tryMatch (c :: rest) with
       | some (flag, name, rest') =>
           (if acc.isEmpty then [] else [Tok.static (String.mk acc.reverse)]) ++
             Tok.tok flag name :: tokenizeAux fuel rest' []
       | none => tokenizeAux fuel rest (c :: acc))
  | _, l, acc =>
      if (acc.reverse ++ l).isEmpty then []
      else [Tok.static (String.mk (acc.reverse ++ l))]

/-- `tokenizeTemplate(template, settings)` with the default settings.
`getTokens` only memoizes this pure function by template text, so the
cache layer is semantically the identity and is not re-modelled. -/
def tokenizeTemplate (t : String) : List Tok := tokenizeAux t.data.length t.data []

/-! ### The built-in `token` filter (main.js lines 48-58)

`addFilter("token", (token, data, tag) => { ... })` splits the token on
`"."` and walks the data object, guarding each step with
`Object.prototype.hasOwnProperty.call(dataLookup, path[i])`.  That call
throws a `TypeError` when `dataLookup` is `null` or `undefined` (they
cannot be coerced to an object); for any other primitive it consults
the wrapper object's own properties (strings own `"length"` and their
canonical index keys; numbers and booleans own nothing).  Throwing is
embedded as `Except.error ()`. -/

/-- `token.split(".")`: JS `String.prototype.split` with a one-character
separator (`""` splits to `[""]`). -/
def splitDotAux : List Char → List Char → List String
  | [], acc => [String.mk acc.reverse]
  | c :: cs, acc =>
      if c = '.' then String.mk acc.reverse :: splitDotAux cs []
      else splitDotAux cs (c :: acc)

/-- `token.split(".")`. -/
def splitDot (s : String) : List String := splitDotAux s.data []

/-- `null` / `undefined` test (the values on which `hasOwnProperty.call`
throws). -/
def isNullish : JSValue → Bool
  | .null | .undefined => true
  | _ => false

/-- Canonical numeric string (`"0"`, `"7"`, ... without leading zeros),
as used for the index own-properties of strings. -/
def canonicalIndex? (k : String) : Option Nat :=
  match k.toNat? with
  | some i => if toString i = k then some i else none
  | none => none

/-- Own-property test of a string primitive's wrapper object. -/
def strOwnKey (s : String) (k : String) : Bool :=
  k == "length" ||
    (match canonicalIndex? k with
     | some i => decide (i < s.data.length)
     | none => false)

/-- Own-property test for a non-nullish value (objects by their fields,
strings by `length`/indices, other primitives own nothing). -/
def ownKeyB : JSValue → String → Bool
  | .obj fs, k => (getField fs k).isSome
  | .str s, k => strOwnKey s k
  | _, _ => false

/-- Property read `dataLookup[path[i]]` (only reached after the
own-property test succeeded). -/
def getPropOf : JSValue → String → JSValue
  | .obj fs, k => (getField fs k).getD .undefined
  | .str s, k =>
      if k == "length" then .num s.data.length
      else
        match canonicalIndex? k with
        | some i =>
            match s.data.drop i with
            | c :: _ => .str (String.mk [c])
            | [] => .undefined
        | none => .undefined
  | _, _ => .undefined

/-- `Object.prototype.hasOwnProperty.call(v, k)`: throws on `null` and
`undefined`, otherwise answers the own-property test. -/
def jsHasOwn (v : JSValue) (k : String) : Except Unit Bool :=
  if isNullish v then .error () else .ok (ownKeyB v k)

/-- The `for` loop of the `token` filter: check `hasOwnProperty`, return
`""` on a missing key, otherwise step into the value. -/
def tokenWalk : List String → JSValue → Except Unit JSValue
  | [], v => .ok v
  | k :: ks, v =>
      match jsHasOwn v k with
      | .error e => .error e
      | .ok false => .ok (JSValue.str "")
      | .ok true => tokenWalk ks (getPropOf v k)

/-- The built-in `token` filter. -/
def tokenFilter (token : String) (data : JSValue) : Except Unit JSValue :=
  tokenWalk (splitDot token) data

/-- `applyFilter("token", name, data, template)` for the default,
single-entry chain: the per-step guard
`substituted !== undefined ? substituted : ""` collapses an `undefined`
filter result to empty text. -/
def applyFilterToken (name : String) (data : JSValue) : Except Unit JSValue :=
  match tokenFilter name data with
  | .error e => .error e
  | .ok .undefined => .ok (JSValue.str "")
  | .ok v => .ok v

/-- The `try { applyFilter(...) } catch { substituted = "" }` wrapper in
`substitute` (main.js lines 222-232). -/
def resolveToken (name : String) (data : JSValue) : JSValue :=
  match applyFilterToken name data with
  | .error _ => JSValue.str ""
  | .ok v => v

/-- No lookup step along the path meets a `null`/`undefined` receiver:
exactly the condition under which the filter's walk cannot throw. -/
def safeWalk : List String → JSValue → Bool
  | [], _ => true
  | k :: ks, v =>
      !isNullish v && (if ownKeyB v k then safeWalk ks (getPropOf v k) else true)

/-- Every path segment is an own key of the value it is read from. -/
def resolvesAll : List String → JSValue → Bool
  | [], _ => true
  | k :: ks, v => !isNullish v && ownKeyB v k && resolvesAll ks (getPropOf v k)

/-- The value at the end of a fully resolving path. -/
def resolvePathVal : List String → JSValue → JSValue
  | [], v => v
  | k :: ks, v => resolvePathVal ks (getPropOf v k)

/-! ### Substitution engine (`substitute`, main.js lines 188-294)

The source walks the cached token list, resolving each opening token
through the `token` filter chain, scanning forward for the first
closing token of the same name, and dispatching on the resolved value:
`typeof x === "boolean"` renders the reconstructed inner template
recursively (or nothing), `typeof x === "object"` (which `null`
passes) iterates `for (const key in x)`, and anything else is appended
stringified.  Each loop entry allocates `"potion_" + uniqueCounter++`,
stores its local context in `localContexts`, and injects the id into
the first opening tag of the trimmed fragment.

`substitute` never reads `localContexts`, so the embedding threads only
the counter and returns the render output, the final counter and the
list of `(counter value, stored context)` pairs in allocation order.
Recursion on reconstructed inner template strings is driven by fuel
that every recursive call decreases. -/

/-- Scan forward for the first closing token with the same name
(`nextSegment.flag === "/" && nextSegment.value === segment.value`);
returns the inner token span and the tokens after the close. -/
def findClose (name : String) : List Tok → Option (List Tok × List Tok)
  | [] => none
  | t :: ts =>
      if (match t with
          | .tok f v => f == "/" && v == name
          | .static _ => false) then
        some ([], ts)
      else
        match findClose name ts with
        | none => none
        | some (inner, rest) => some (t :: inner, rest)

/-- Re-serialize one token when reconstructing a block's inner template
(`start + (flag || "") + value + end`). -/
def serializeTok : Tok → String
  | .static s => s
  | .tok flag name => "[" ++ flag ++ name ++ "]"

/-- `innerTokens.map(serialize).join("")`. -/
def innerTemplateOf (toks : List Tok) : String :=
  toks.foldl (fun acc t => acc ++ serializeTok t) ""

/-- `renderedBlock.replace(/^\s*<([a-zA-Z0-9-]+)/, '<$1 data-potion-key="uid"')`:
if the fragment starts (after optional whitespace, which the replacement
drops) with an opening tag, inject the key attribute after the tag name;
otherwise leave the fragment unchanged. -/
def injectKey (uid : String) (s : String) : String :=
  match s.data.dropWhile isJsWs with
  | c :: cs =>
      if c = '<' then
        let tag := cs.takeWhile isTagChar
        if tag.isEmpty then s
        else
          String.mk ('<' :: tag) ++ " data-potion-key=\"" ++ uid ++ "\"" ++
            String.mk (cs.dropWhile isTagChar)
      else s
  | [] => s

/-- The per-entry local context
`Object.assign({}, value, { _key: key, _value: value })` (strings spread
to their indexed characters; other primitives contribute nothing). -/
def ownEnumerableFields : JSValue → List (String × JSValue)
  | .obj fs => fs
  | .str s => s.data.enum.map (fun ic => (toString ic.1, JSValue.str (String.mk [ic.2])))
  | _ => []

/-- Local loop context for one iteration entry. -/
def loopDataOf (key : String) (v : JSValue) : List (String × JSValue) :=
  setField (setField (assignFields [] (ownEnumerableFields v)) "_key" (.str key))
    "_value" v

mutual

/-- `substitute(template, data, settings)` with the default settings,
fuel-bounded: tokenizes the template and walks the token list. -/
def substituteF : Nat → String → JSValue → Nat → String × Nat × List (Nat × JSValue)
  | 0, _, _, c => ("", c, [])
  | fuel + 1, tpl, data, c => substToks fuel (tokenizeTemplate tpl) data c

/-- The token-list walk of `substitute`. -/
def substToks : Nat → List Tok → JSValue → Nat → String × Nat × List (Nat × JSValue)
  | _, [], _, c => ("", c, [])
  | 0, _ :: _, _, c => ("", c, [])
  | fuel + 1, Tok.static s :: rest, data, c =>
      let r := substToks fuel rest data c
      (s ++ r.1, r.2.1, r.2.2)
  | fuel + 1, Tok.tok flag name :: rest, data, c =>
      if flag = "/" then
        -- stray closing token: skipped
        substToks fuel rest data c
      else
        let substituted := resolveToken name data
        match findClose name rest with
        | none =>
            -- no matching close: plain interpolation
            let r := substToks fuel rest data c
            (jsToString substituted ++ r.1, r.2.1, r.2.2)
        | some (inner, after) =>
            let innerTpl := innerTemplateOf inner
            match substituted with
            | JSValue.bool b =>
                let rb := if b then substituteF fuel innerTpl data c
                          else ("", c, ([] : List (Nat × JSValue)))
                let r := substToks fuel after data rb.2.1
                (rb.1 ++ r.1, r.2.1, rb.2.2 ++ r.2.2)
            | JSValue.null =>
                -- typeof null === "object": iteration over zero keys
                let it := iterEntries fuel innerTpl [] c
                let r := substToks fuel after data it.2.1
                (it.1 ++ r.1, r.2.1, it.2.2 ++ r.2.2)
            | JSValue.obj fs =>
                let it := iterEntries fuel innerTpl fs c
                let r := substToks fuel after data it.2.1
                (it.1 ++ r.1, r.2.1, it.2.2 ++ r.2.2)
            | v =>
                let r := substToks fuel after data c
                (jsToString v ++ r.1, r.2.1, r.2.2)

/-- The `for (const key in substituted)` loop of the iteration branch:
render the inner template against the local context, trim, allocate
`potion_<counter>`, store the context, inject the key attribute. -/
def iterEntries : Nat → String → List (String × JSValue) → Nat →
    String × Nat × List (Nat × JSValue)
  | _, _, [], c => ("", c, [])
  | 0, _, _ :: _, c => ("", c, [])
  | fuel + 1, tpl, (key, v) :: fs, c =>
      let ld := loopDataOf key v
      let rb := substituteF fuel tpl (JSValue.obj ld) c
      let uid := "potion_" ++ toString rb.2.1
      let out := injectKey uid (strTrim rb.1)
      let rest := iterEntries fuel tpl fs (rb.2.1 + 1)
      (out ++ rest.1, rest.2.1, rb.2.2 ++ (rb.2.1, JSValue.obj ld) :: rest.2.2)

end

/-- A sequence of render passes sharing the runtime's counter (e.g. the
re-renders of one or several mounted instances): returns the contexts
stored across the whole sequence and the final counter. -/
def runRenders : List (Nat × String × JSValue) → Nat → List (Nat × JSValue) × Nat
  | [], c => ([], c)
  | (fuel, tpl, data) :: rs, c =>
      let r := substituteF fuel tpl data c
      let rest := runRenders rs r.2.1
      (r.2.2 ++ rest.1, rest.2)

/-! ### Reactive wrapper `set` trap (`deepProxy`, main.js lines 557-564)

The trap reads `oldValue = obj[prop]`, performs `Reflect.set`
unconditionally, and calls `onChange()` afterwards exactly when
`oldValue !== value`.  The observable behaviour of one trapped write is
embedded as the updated field list plus the ordered list of effects.
Strict equality is embedded on primitive values; reference identity of
two object operands is outside the embedding (theorems exclude the
object-to-object comparison), and `NaN` does not arise because numbers
are ideal integers. -/

/-- Effects of one trapped property write, in order. -/
inductive PEvent where
  | write (prop : String) (v : JSValue)
  | notify
  deriving Repr

/-- Object test used to scope the strict-equality embedding. -/
def isObjVal : JSValue → Bool
  | .obj _ => true
  | _ => false

/-- JS `===` on embedded values (primitives by value; the object-object
case is unmodelled identity and is excluded by hypothesis wherever it
could matter). -/
def strictEq : JSValue → JSValue → Bool
  | .null, .null => true
  | .undefined, .undefined => true
  | .bool a, .bool b => a == b
  | .num a, .num b => a == b
  | .str a, .str b => a == b
  | _, _ => false

/-- The `set` trap of `deepProxy` on a wrapped object: old value read
(`undefined` when the property is absent), unconditional underlying
write, then a notification exactly when old and new differ. -/
def proxySet (fields : List (String × JSValue)) (prop : String) (v : JSValue) :
    List (String × JSValue) × List PEvent :=
  let oldValue := (getField fields prop).getD JSValue.undefined
  (setField fields prop v,
   if strictEq oldValue v then [PEvent.write prop v]
   else [PEvent.write prop v, PEvent.notify])

/-! ### Document reconciler (`diffNodes`, main.js lines 450-490)

Nodes are embedded as text or element nodes with ordered attribute
lists and child lists.  `diffNodes` replaces the whole subtree on a
node-type or node-name mismatch, overwrites differing text, and on
matching elements (1) copies every new attribute whose name does not
start with `"@"` or `"#"` onto the live node when values differ, (2)
removes every live attribute absent from the new node, again skipping
names starting with `"@"` or `"#"`, then (3) diffs children pairwise by
index, cloning extra new children and removing extra old ones. -/

/-- A DOM node: text or element (tag, attributes in document order,
children). -/
inductive DNode where
  | text (s : String)
  | elem (tag : String) (attrs : List (String × String)) (children : List DNode)
  deriving Repr

/-- The attribute-name guard `attr.name.startsWith("@") || attr.name.startsWith("#")`. -/
def isDirOrRefName (n : String) : Bool :=
  startsWithChar n '@' || startsWithChar n '#'

/-- `getAttribute`: `none` models the `null` return for an absent name. -/
def getAttr : List (String × String) → String → Option String
  | [], _ => none
  | (k, v) :: fs, key => if k = key then some v else getAttr fs key

/-- `setAttribute`: overwrite in place or append. -/
def setAttr : List (String × String) → String → String → List (String × String)
  | [], key, v => [(key, v)]
  | (k, w) :: fs, key, v =>
      if k = key then (k, v) :: fs else (k, w) :: setAttr fs key v

/-- `hasAttribute`. -/
def hasAttr (l : List (String × String)) (n : String) : Bool :=
  (getAttr l n).isSome

/-- First attribute pass: copy each non-directive new attribute whose
value differs. -/
def patchSetPass (oldA newA : List (String × String)) : List (String × String) :=
  newA.foldl
    (fun acc nv =>
      if isDirOrRefName nv.1 then acc
      else if getAttr acc nv.1 = some nv.2 then acc
      else setAttr acc nv.1 nv.2)
    oldA

/-- Second attribute pass: drop every non-directive live attribute the
new node lacks. -/
def patchRemovePass (cur newA : List (String × String)) : List (String × String) :=
  cur.filter (fun nv => isDirOrRefName nv.1 || hasAttr newA nv.1)

mutual

/-- `diffNodes(oldNode, newNode)`, returning the patched live node
(replacement clones included). -/
def diffNodes : DNode → DNode → DNode
  | DNode.text _, DNode.text b => DNode.text b
  | DNode.elem t1 a1 c1, DNode.elem t2 a2 c2 =>
      if t1 = t2 then
        DNode.elem t1 (patchRemovePass (patchSetPass a1 a2) a2) (diffChildren c1 c2)
      else DNode.elem t2 a2 c2
  | _, newNode => newNode

/-- Pairwise child diff up to `max(oldCount, newCount)`: both present →
recurse; only new → append a clone; only old → remove. -/
def diffChildren : List DNode → List DNode → List DNode
  | [], news => news
  | _ :: _, [] => []
  | o :: os, n :: ns => diffNodes o n :: diffChildren os ns

end

/-- Attribute lookup on a node (elements only). -/
def nodeGetAttr : DNode → String → Option String
  | .elem _ attrs _, n => getAttr attrs n
  | .text _, _ => none

/-! ### Filter registry ordering (`addFilter`/`applyFilter`, main.js 21-45)

`addFilter` pushes `[fn, priority]` onto the name's chain and re-sorts
it with the comparator `(a, b) => a[1] - b[1]`; `Array.prototype.sort`
is required to be stable, so the chain keeps ascending priorities with
ties in push order.  `applyFilter` reduces over the chain left to
right, so the chain order is the invocation order.  Filter functions
are opaque and represented by identifiers. -/

/-- One registered filter: `(function identifier, priority)`. -/
abbrev FilterEntry := Nat × Int

/-- Stable ascending insertion: the new entry goes after every entry of
priority less than or equal to its own. -/
def insertE (e : FilterEntry) : List FilterEntry → List FilterEntry
  | [] => [e]
  | x :: xs => if x.2 ≤ e.2 then x :: insertE e xs else e :: x :: xs

/-- A stable ascending sort by priority — the behaviour ES2019 requires
of `chain.sort((a, b) => a[1] - b[1])`. -/
def jsSortByPriority (l : List FilterEntry) : List FilterEntry :=
  l.foldl (fun acc x => insertE x acc) []

/-- One `addFilter` call on an existing chain: push, then stable sort. -/
def addFilterModel (chain : List FilterEntry) (e : FilterEntry) : List FilterEntry :=
  jsSortByPriority (chain ++ [e])

/-- The chain resulting from a whole registration sequence. -/
def registerAll (regs : List FilterEntry) : List FilterEntry :=
  regs.foldl addFilterModel []

/-- The invocation order of `applyFilter`'s left-to-right reduce. -/
def applyOrder (chain : List FilterEntry) : List Nat :=
  chain.map Prod.fst

/-! ### Event-argument parsing (`parseEventArgs`, main.js lines 336-342)

`parseEventArgs(arg, data)`: the literals `"true"`/`"false"`, then
`!isNaN(arg)` (numeric strings, including the empty/whitespace string,
coerce via `Number`), then the quoted-literal pattern
`/^["'](.*)["']$/` (whose `.` excludes line terminators), and finally
`data[arg] || arg`.  The numeric coercion is embedded for
integer-valued numeric strings (optionally signed decimal digits and
the whitespace-only case); non-integer and non-finite numeric forms
(`"1.5"`, `"0x10"`, `"Infinity"`, ...) lie outside the integer value
domain and the theorems' hypotheses avoid them. -/

/-- Digit-string value, or `none` if empty or not all digits. -/
def digitsVal? (l : List Char) : Option Nat :=
  if l ≠ [] ∧ l.all Char.isDigit then
    some (l.foldl (fun acc c => acc * 10 + (c.toNat - '0'.toNat)) 0)
  else none

/-- `Number(s)` restricted to integer results: trimmed empty string is
`0`; otherwise an optionally signed run of decimal digits. -/
def jsNumberOfString? (s : String) : Option Int :=
  let t := jsTrimList s.data
  if t.isEmpty then some 0
  else
    match t with
    | c :: ds =>
        if c = '+' then (digitsVal? ds).map Int.ofNat
        else if c = '-' then (digitsVal? ds).map (fun m => -(m : Int))
        else (digitsVal? (c :: ds)).map Int.ofNat
    | [] => none

/-- `"` or `'`. -/
def isQuoteChar (c : Char) : Bool := c == '"' || c == '\''

/-- Line terminators, which `.` in the quoted-literal pattern refuses. -/
def isLineTerm (c : Char) : Bool :=
  c == '\n' || c == '\r' || c == Char.ofNat 0x2028 || c == Char.ofNat 0x2029

/-- `arg.match(/^["'](.*)["']$/)` on the character list: first and last
characters are quote characters (at least two characters) and the
greedy middle crosses no line terminator; returns the capture. -/
def quotedMidAux : List Char → Option String
  | c :: cs =>
      if isQuoteChar c then
        match cs.reverse with
        | c2 :: midRev =>
            if isQuoteChar c2 && !(midRev.any isLineTerm) then
              some (String.mk midRev.reverse)
            else none
        | [] => none
      else none
  | [] => none

/-- `arg.match(/^["'](.*)["']$/)`, yielding the capture. -/
def quotedMid? (s : String) : Option String := quotedMidAux s.data

/-- `parseEventArgs(arg, data)`. -/
def parseEventArgs (arg : String) (data : JSValue) : JSValue :=
  if arg = "true" then JSValue.bool true
  else if arg = "false" then JSValue.bool false
  else
    match jsNumberOfString? arg with
    | some n => JSValue.num n
    | none =>
        match quotedMid? arg with
        | some mid => JSValue.str mid
        | none =>
            -- data[arg] || arg
            match data with
            | JSValue.obj fs =>
                match getField fs arg with
                | some v => if truthy v then v else JSValue.str arg
                | none => JSValue.str arg
            | _ => JSValue.str arg

/-- Identifier-start characters of the bare-argument form. -/
def isIdentStart (c : Char) : Bool := c.isAlpha || c == '_' || c == '$'

/-- Identifier characters. -/
def isIdentChar (c : Char) : Bool :=
  c.isAlpha || c.isDigit || c == '_' || c == '$'

/-- A bare identifier: nonempty, identifier start, identifier tail. -/
def isIdentString (s : String) : Bool :=
  match s.data with
  | [] => false
  | c :: cs => isIdentStart c && cs.all isIdentChar

/-! ## Theorems -/

/-! ### Reconciler attribute handling (claim C1) -/

theorem getAttr_setAttr_ne (l : List (String × String)) (key v name : String)
    (h : key ≠ name) : getAttr (setAttr l key v) name = getAttr l name := by
  induction l with
  | nil => simp [setAttr, getAttr, h]
  | cons kv fs ih =>
      obtain ⟨k, w⟩ := kv
      by_cases hk : k = key
      · subst hk
        have hkn : k ≠ name := h
        simp [setAttr, getAttr, hkn]
      · by_cases hn : k = name
        · have hnk : ¬name = key := fun he => h he.symm
          simp [setAttr, getAttr, hk, hn, hnk]
        · simp [setAttr, getAttr, hk, hn, ih]

theorem patchSetPass_directive (name : String) (h : isDirOrRefName name = true) :
    ∀ (newA acc : List (String × String)),
    getAttr (patchSetPass acc newA) name = getAttr acc name := by
  intro newA
  induction newA with
  | nil => intro acc; rfl
  | cons nv rest ih =>
      intro acc
      have hunf : patchSetPass acc (nv :: rest) =
          patchSetPass
            (if isDirOrRefName nv.1 then acc
             else if getAttr acc nv.1 = some nv.2 then acc
             else setAttr acc nv.1 nv.2) rest := rfl
      rw [hunf, ih]
      by_cases hd : isDirOrRefName nv.1 = true
      · simp [hd]
      · have hne : nv.1 ≠ name := by
          intro he
          rw [he] at hd
          exact hd h
        by_cases hg : getAttr acc nv.1 = some nv.2
        · simp [hd, hg]
        · simp [hd, hg, getAttr_setAttr_ne _ _ _ _ hne]

theorem patchRemovePass_directive (name : String) (h : isDirOrRefName name = true) :
    ∀ (cur newA : List (String × String)),
    getAttr (patchRemovePass cur newA) name = getAttr cur name := by
  intro cur newA
  induction cur with
  | nil => rfl
  | cons kv fs ih =>
      obtain ⟨k, v⟩ := kv
      by_cases hk : k = name
      · subst hk
        simp [patchRemovePass, List.filter_cons, h, getAttr]
      · rcases hf : (isDirOrRefName k || hasAttr newA k) with _ | _
        · simpa [patchRemovePass, List.filter_cons, hf, getAttr, hk] using ih
        · simpa [patchRemovePass, List.filter_cons, hf, getAttr, hk] using ih

/-- C1 (amended): in the element-versus-element pass of `diffNodes`,
every attribute of the live element whose name starts with the
directive marker `"@"` or the reference marker `"#"` is left unchanged
— neither overwritten from the new node nor removed when absent from
it.  (The iteration position marker `data-potion-key` starts with
neither character and is not protected; see the counterexample.) -/
theorem c1_directive_attributes_preserved :
    ∀ (tag : String) (a1 : List (String × String)) (ch1 : List DNode)
      (a2 : List (String × String)) (ch2 : List DNode) (name : String),
    isDirOrRefName name = true →
    nodeGetAttr (diffNodes (DNode.elem tag a1 ch1) (DNode.elem tag a2 ch2)) name =
      getAttr a1 name := by
  intro tag a1 ch1 a2 ch2 name h
  have hd : diffNodes (DNode.elem tag a1 ch1) (DNode.elem tag a2 ch2) =
      DNode.elem tag (patchRemovePass (patchSetPass a1 a2) a2) (diffChildren ch1 ch2) := by
    simp [diffNodes]
  rw [hd]
  simp only [nodeGetAttr]
  rw [patchRemovePass_directive name h, patchSetPass_directive name h]

/-- Witness for C1: a live element with `@click="go()"` reconciled
against new markup that lacks the attribute keeps it. -/
theorem c1_directive_attributes_preserved_witness :
    nodeGetAttr (diffNodes (DNode.elem "DIV" [("@click", "go()"), ("class", "x")] [])
      (DNode.elem "DIV" [("class", "y")] [])) "@click" = some "go()" := by
  have h := c1_directive_attributes_preserved "DIV" [("@click", "go()"), ("class", "x")] []
    [("class", "y")] [] "@click" (by decide)
  exact h.trans rfl

/-- Counterexample to C1 as stated: the reconciler-owned iteration
position marker `data-potion-key` is treated as an ordinary attribute —
here it is removed because the new node lacks it. -/
theorem c1_counterexample :
    nodeGetAttr (diffNodes (DNode.elem "DIV" [("data-potion-key", "potion_0")] [])
        (DNode.elem "DIV" [] [])) "data-potion-key" = none
    ∧ getAttr [("data-potion-key", "potion_0")] "data-potion-key" = some "potion_0" :=
  ⟨rfl, rfl⟩

/-! ### Reactive wrapper notification (claim C4) -/

/-- C4: a trapped property write always performs the underlying write;
when the written value strictly equals the current value the change
callback is not invoked, and when it differs the callback is invoked
exactly once, after the write.  (The hypothesis excludes the
object-to-object comparison, whose reference identity the embedding
does not carry; `NaN` does not arise because numbers are ideal
integers.) -/
theorem c4_proxy_set_notify :
    ∀ (fields : List (String × JSValue)) (prop : String) (v : JSValue),
    (isObjVal ((getField fields prop).getD JSValue.undefined) && isObjVal v) = false →
    (proxySet fields prop v).1 = setField fields prop v
    ∧ (strictEq ((getField fields prop).getD JSValue.undefined) v = true →
        (proxySet fields prop v).2 = [PEvent.write prop v])
    ∧ (strictEq ((getField fields prop).getD JSValue.undefined) v = false →
        (proxySet fields prop v).2 = [PEvent.write prop v, PEvent.notify]) := by
  intro fields prop v _
  refine ⟨rfl, ?_, ?_⟩ <;> intro h <;> simp [proxySet, h]

/-- Witness for C4: wrapping `{a: 1}`, writing `1` gives no
notification, writing `2` gives exactly one, after the write. -/
theorem c4_proxy_set_notify_witness :
    (proxySet [("a", JSValue.num 1)] "a" (JSValue.num 1)).2 =
      [PEvent.write "a" (JSValue.num 1)]
    ∧ (proxySet [("a", JSValue.num 1)] "a" (JSValue.num 2)).2 =
      [PEvent.write "a" (JSValue.num 2), PEvent.notify] :=
  ⟨(c4_proxy_set_notify [("a", JSValue.num 1)] "a" (JSValue.num 1) (by rfl)).2.1 (by rfl),
   (c4_proxy_set_notify [("a", JSValue.num 1)] "a" (JSValue.num 2) (by rfl)).2.2 (by rfl)⟩

/-! ### Tokenizer totality (claim C7) -/

theorem tokenizeAux_all_static :
    ∀ (fuel : Nat) (l acc : List Char),
    (∀ tk ∈ tokenizeAux fuel l acc, isStaticTok tk = true) →
    tokenizeAux fuel l acc =
      if (acc.reverse ++ l).isEmpty then []
      else [Tok.static (String.mk (acc.reverse ++ l))] := by
  intro fuel
  induction fuel with
  | zero => intro l acc _; rfl
  | succ fuel ih =>
      intro l acc hall
      cases l with
      | nil => rfl
      | cons c rest =>
          rcases htm : tryMatch (c :: rest) with _ | ⟨flag, name, rest'⟩
          · have hstep : tokenizeAux (fuel + 1) (c :: rest) acc =
                tokenizeAux fuel rest (c :: acc) := by
              simp only [tokenizeAux, htm]
            rw [hstep] at hall ⊢
            rw [ih rest (c :: acc) hall]
            have hrw : (c :: acc).reverse ++ rest = acc.reverse ++ c :: rest := by
              simp
            rw [hrw]
          · exfalso
            have hmem : Tok.tok flag name ∈ tokenizeAux (fuel + 1) (c :: rest) acc := by
              simp only [tokenizeAux, htm]
              simp
            have := hall _ hmem
            simp [isStaticTok] at this

/-- C7 (amended): tokenization is total; on a nonempty template in
which the pattern matches nowhere — in particular one whose unmatched
delimiters are just literal text — the result is the single static
segment holding the whole template.  The empty template is the one
exception: it tokenizes to the empty segment list, not to a static
segment (see the counterexample). -/
theorem c7_tokenizer_total :
    ∀ t : String, t ≠ "" → (∀ tk ∈ tokenizeTemplate t, isStaticTok tk = true) →
    tokenizeTemplate t = [Tok.static t] := by
  intro t hne hall
  have hdata : t.data ≠ [] := by
    intro h
    apply hne
    cases t with
    | mk d => simp at h; rw [h]
  have := tokenizeAux_all_static t.data.length t.data [] hall
  simp only [tokenizeTemplate] at this ⊢
  rw [this]
  simp only [List.reverse_nil, List.nil_append]
  rw [if_neg (by simpa [List.isEmpty_iff] using hdata)]

/-- Witness for C7: `"a[b"` has an unmatched delimiter, matches no
token, and tokenizes to one static segment equal to the whole text. -/
theorem c7_tokenizer_total_witness : tokenizeTemplate "a[b" = [Tok.static "a[b"] :=
  c7_tokenizer_total "a[b" (by decide) (by decide)

/-- Counterexample to C7 as stated: the empty template matches no token
yet produces the empty segment list, not a single static segment. -/
theorem c7_counterexample :
    tokenizeTemplate "" = [] ∧ tokenizeTemplate "" ≠ [Tok.static ""] :=
  ⟨rfl, by decide⟩

/-! ### The `token` filter's walk (claim C3) -/

theorem tokenWalk_of_safe :
    ∀ (ks : List String) (v : JSValue), safeWalk ks v = true →
    (resolvesAll ks v = true → tokenWalk ks v = .ok (resolvePathVal ks v))
    ∧ (resolvesAll ks v = false → tokenWalk ks v = .ok (JSValue.str "")) := by
  intro ks
  induction ks with
  | nil =>
      intro v _
      refine ⟨fun _ => rfl, fun hf => ?_⟩
      simp [resolvesAll] at hf
  | cons k ks ih =>
      intro v hsafe
      simp only [safeWalk, Bool.and_eq_true, Bool.not_eq_true'] at hsafe
      obtain ⟨hnn, hrest⟩ := hsafe
      by_cases hown : ownKeyB v k = true
      · have hsafe' : safeWalk ks (getPropOf v k) = true := by
          rw [if_pos hown] at hrest
          exact hrest
        have hwalk : tokenWalk (k :: ks) v = tokenWalk ks (getPropOf v k) := by
          simp [tokenWalk, jsHasOwn, hnn, hown]
        have hres : resolvesAll (k :: ks) v = resolvesAll ks (getPropOf v k) := by
          simp [resolvesAll, hnn, hown]
        have hval : resolvePathVal (k :: ks) v = resolvePathVal ks (getPropOf v k) := rfl
        rw [hwalk, hres, hval]
        exact ih (getPropOf v k) hsafe'
      · have hown' : ownKeyB v k = false := by simpa using hown
        have hwalk : tokenWalk (k :: ks) v = .ok (JSValue.str "") := by
          simp [tokenWalk, jsHasOwn, hnn, hown']
        have hres : resolvesAll (k :: ks) v = false := by
          simp [resolvesAll, hown']
        refine ⟨fun ht => ?_, fun _ => hwalk⟩
        rw [hres] at ht
        cases ht

/-- C3 (amended): the built-in `token` filter walks the dotted path
segment by segment and returns the empty string as soon as a segment is
not an own key of the current value, and it does not throw provided no
lookup step meets a `null`/`undefined` receiver.  When an intermediate
value along the path is `null` or `undefined` and a segment remains,
`hasOwnProperty.call` throws a `TypeError` (see the counterexample; the
`try`/`catch` around `applyFilter` in `substitute` then degrades the
token to empty text). -/
theorem c3_token_filter_walk :
    ∀ (token : String) (data : JSValue), safeWalk (splitDot token) data = true →
    (resolvesAll (splitDot token) data = true →
        tokenFilter token data = .ok (resolvePathVal (splitDot token) data))
    ∧ (resolvesAll (splitDot token) data = false →
        tokenFilter token data = .ok (JSValue.str "")) := by
  intro token data h
  exact tokenWalk_of_safe (splitDot token) data h

/-- Witness for C3: path `"a.b"` against `{a: {c: 1}}` misses at the
second segment and yields the empty string without throwing. -/
theorem c3_token_filter_walk_witness :
    tokenFilter "a.b" (JSValue.obj [("a", JSValue.obj [("c", JSValue.num 1)])]) =
      .ok (JSValue.str "") :=
  (c3_token_filter_walk "a.b" (JSValue.obj [("a", JSValue.obj [("c", JSValue.num 1)])])
    (by rfl)).2 (by rfl)

/-- Counterexample to C3 as stated: with `{a: null}` the path `"a.b"`
makes the filter throw (`hasOwnProperty.call(null, "b")`), rather than
return empty text. -/
theorem c3_counterexample :
    tokenFilter "a.b" (JSValue.obj [("a", JSValue.null)]) = .error () := rfl

/-! ### Conditional blocks (claim C5) and null blocks (claim C10) -/

theorem iterEntries_nil (fuel : Nat) (tpl : String) (c : Nat) :
    iterEntries fuel tpl [] c = ("", c, []) := by
  cases fuel <;> rfl

/-- C5 (amended): a block whose opening token resolves to a boolean
renders, when `true`, exactly the recursive rendering of the
reconstructed inner template with the same data, and contributes the
empty string when `false`; concretely, `"[flag]yes[/flag]"` — the token
naming the data key — renders `"yes"` under `{flag: true}` and `""`
under `{flag: false}`.  (The claim's original example `"[if.flag]"`
resolves the dotted path `if.flag`, absent from `{flag: ...}`; see the
counterexample.) -/
theorem c5_boolean_block :
    (∀ (fuel : Nat) (name : String) (rest inner after : List Tok) (data : JSValue)
        (c : Nat) (b : Bool),
      findClose name rest = some (inner, after) →
      resolveToken name data = JSValue.bool b →
      substToks (fuel + 1) (Tok.tok "" name :: rest) data c =
        (let rb := if b then substituteF fuel (innerTemplateOf inner) data c
                   else ("", c, ([] : List (Nat × JSValue)))
         let r := substToks fuel after data rb.2.1
         (rb.1 ++ r.1, r.2.1, rb.2.2 ++ r.2.2)))
    ∧ (substituteF 10 "[flag]yes[/flag]" (JSValue.obj [("flag", JSValue.bool true)]) 0).1 = "yes"
    ∧ (substituteF 10 "[flag]yes[/flag]" (JSValue.obj [("flag", JSValue.bool false)]) 0).1 = "" := by
  refine ⟨?_, rfl, rfl⟩
  intro fuel name rest inner after data c b hfc hres
  simp only [substToks, hres, hfc]
  rw [if_neg (by decide : ¬("" : String) = "/")]

/-- Witness for C5: block `[b]...[/b]` over `{b: true}` at concrete
token lists. -/
theorem c5_boolean_block_witness :
    substToks 2 [Tok.tok "" "b", Tok.tok "/" "b"]
        (JSValue.obj [("b", JSValue.bool true)]) 0 =
      (let rb := if true then substituteF 1 (innerTemplateOf [])
                     (JSValue.obj [("b", JSValue.bool true)]) 0
                 else ("", 0, ([] : List (Nat × JSValue)))
       let r := substToks 1 [] (JSValue.obj [("b", JSValue.bool true)]) rb.2.1
       (rb.1 ++ r.1, r.2.1, rb.2.2 ++ r.2.2)) :=
  c5_boolean_block.1 1 "b" [Tok.tok "/" "b"] [] []
    (JSValue.obj [("b", JSValue.bool true)]) 0 true rfl rfl

/-- Counterexample to C5's stated example: `"[if.flag]yes[/if.flag]"`
with `{flag: true}` renders `""`, not `"yes"`, because the dotted path
`if.flag` does not resolve in that data. -/
theorem c5_counterexample :
    (substituteF 10 "[if.flag]yes[/if.flag]"
      (JSValue.obj [("flag", JSValue.bool true)]) 0).1 ≠ "yes" := by
  decide

/-- C10: `typeof null` is `"object"`, so a block whose opening token
resolves to `null` dispatches to the iteration branch; `for ... in null`
enumerates zero keys, so the block contributes exactly the empty string
(not the stringified `"null"`), allocates no context, and leaves the
counter unchanged. -/
theorem c10_null_block_empty :
    jsTypeof JSValue.null = "object"
    ∧ (∀ (fuel : Nat) (name : String) (rest inner after : List Tok) (data : JSValue)
        (c : Nat),
      findClose name rest = some (inner, after) →
      resolveToken name data = JSValue.null →
      substToks (fuel + 1) (Tok.tok "" name :: rest) data c = substToks fuel after data c)
    ∧ substituteF 10 "[a]x[/a]" (JSValue.obj [("a", JSValue.null)]) 0 = ("", 0, []) := by
  refine ⟨rfl, ?_, rfl⟩
  intro fuel name rest inner after data c hfc hres
  simp only [substToks, hres, hfc]
  rw [if_neg (by decide : ¬("" : String) = "/")]
  rw [iterEntries_nil]
  rfl

/-- Witness for C10: block `[a]...[/a]` over `{a: null}` at concrete
token lists contributes nothing. -/
theorem c10_null_block_empty_witness :
    substToks 2 [Tok.tok "" "a", Tok.static "x", Tok.tok "/" "a"]
        (JSValue.obj [("a", JSValue.null)]) 0 =
      substToks 1 [] (JSValue.obj [("a", JSValue.null)]) 0 :=
  c10_null_block_empty.2.1 1 "a" [Tok.static "x", Tok.tok "/" "a"] [Tok.static "x"] []
    (JSValue.obj [("a", JSValue.null)]) 0 rfl rfl

/-! ### Event-argument parsing (claim C8) -/

theorem dropWhile_append_last (p : Char → Bool) (l : List Char) (c : Char)
    (hc : p c = false) : (l ++ [c]).dropWhile p = l.dropWhile p ++ [c] := by
  induction l with
  | nil => simp [List.dropWhile, hc]
  | cons a as ih =>
      by_cases ha : p a
      · simp [List.dropWhile_cons, ha, ih]
      · simp [List.dropWhile_cons, ha]

theorem jsTrimList_cons (c : Char) (cs : List Char) (hc : isJsWs c = false) :
    jsTrimList (c :: cs) = c :: ((cs.reverse.dropWhile isJsWs).reverse) := by
  unfold jsTrimList
  rw [List.dropWhile_cons]
  simp only [hc, Bool.false_eq_true, if_false]
  rw [List.reverse_cons, dropWhile_append_last _ _ _ hc, List.reverse_append]
  simp

/-- A string whose first character is neither whitespace, a sign, nor a
digit is not numeric (`isNaN` holds for it). -/
theorem jsNumber_none_of_head (s : String) (c : Char) (cs : List Char)
    (hd : s.data = c :: cs) (hws : isJsWs c = false) (hplus : c ≠ '+')
    (hminus : c ≠ '-') (hdig : c.isDigit = false) : jsNumberOfString? s = none := by
  unfold jsNumberOfString?
  rw [hd, jsTrimList_cons c cs hws]
  simp only [List.isEmpty_cons, if_false, Bool.false_eq_true]
  rw [if_neg hplus, if_neg hminus]
  have : digitsVal? (c :: (cs.reverse.dropWhile isJsWs).reverse) = none := by
    unfold digitsVal?
    rw [if_neg]
    intro hcond
    have := hcond.2
    simp only [List.all_cons, Bool.and_eq_true] at this
    rw [hdig] at this
    exact absurd this.1 (by decide)
  rw [this]
  rfl

theorem isJsWs_false_of_isAlpha {c : Char} (h : c.isAlpha = true) : isJsWs c = false := by
  rcases hw : isJsWs c with _ | _
  · rfl
  · exfalso
    simp only [isJsWs, Bool.or_eq_true, beq_iff_eq] at hw
    casesm* _ ∨ _ <;> subst_vars <;> exact absurd h (by decide)

theorem isDigit_false_of_isAlpha {c : Char} (h : c.isAlpha = true) : c.isDigit = false := by
  rcases hd : c.isDigit with _ | _
  · rfl
  · exfalso
    simp only [Char.isDigit, Char.isAlpha, Char.isUpper, Char.isLower, Bool.or_eq_true,
      Bool.and_eq_true, decide_eq_true_eq, UInt32.le_def, BitVec.le_def,
      show (UInt32.toBitVec 48).toNat = 48 from rfl,
      show (UInt32.toBitVec 57).toNat = 57 from rfl,
      show (UInt32.toBitVec 65).toNat = 65 from rfl,
      show (UInt32.toBitVec 90).toNat = 90 from rfl,
      show (UInt32.toBitVec 97).toNat = 97 from rfl,
      show (UInt32.toBitVec 122).toNat = 122 from rfl] at hd h
    rcases hd with ⟨ha, hb⟩
    rcases h with ⟨hc, -⟩ | ⟨hc, -⟩ <;> omega

/-- Properties of an identifier's first character needed to route
`parseEventArgs` past the literal branches. -/
theorem identStart_props {c : Char} (h : isIdentStart c = true) :
    isJsWs c = false ∧ c ≠ '+' ∧ c ≠ '-' ∧ c.isDigit = false ∧ isQuoteChar c = false := by
  have hc : c.isAlpha = true ∨ c = '_' ∨ c = '$' := by
    simpa [isIdentStart, Bool.or_eq_true, beq_iff_eq, or_assoc] using h
  rcases hc with h1 | h1 | h1
  · refine ⟨isJsWs_false_of_isAlpha h1, ?_, ?_, isDigit_false_of_isAlpha h1, ?_⟩
    · intro he; subst he; exact absurd h1 (by decide)
    · intro he; subst he; exact absurd h1 (by decide)
    · rcases hq : isQuoteChar c with _ | _
      · rfl
      · exfalso
        simp only [isQuoteChar, Bool.or_eq_true, beq_iff_eq] at hq
        rcases hq with h2 | h2 <;> subst h2 <;> exact absurd h1 (by decide)
  · subst h1; exact ⟨rfl, by decide, by decide, rfl, rfl⟩
  · subst h1; exact ⟨rfl, by decide, by decide, rfl, rfl⟩

theorem quotedMid_head {s : String} {mid : String} (h : quotedMid? s = some mid) :
    ∃ c cs, s.data = c :: cs ∧ isQuoteChar c = true := by
  unfold quotedMid? at h
  rcases hd : s.data with _ | ⟨c, cs⟩ <;> rw [hd] at h
  · cases h
  · by_cases hq : isQuoteChar c = true
    · exact ⟨c, cs, rfl, hq⟩
    · rw [quotedMidAux, if_neg (by simpa using hq)] at h
      cases h

/-- C8 (amended): event arguments parse as follows — `"true"`/`"false"`
to the booleans; numeric strings to their numbers; quoted literals to
their unquoted text; and a bare identifier resolves through
`data[arg] || arg`, i.e. to the property's value only when that value
is truthy, falling back to the literal identifier text both when the
property is absent and when its value is falsy (`0`, `false`, `""`,
`null`, ...; see the counterexample).  `"Infinity"` is excluded: it is
identifier-shaped but JS parses it as a number, which the integer value
domain of the embedding cannot carry. -/
theorem c8_parse_event_args :
    (∀ d : JSValue, parseEventArgs "true" d = JSValue.bool true
        ∧ parseEventArgs "false" d = JSValue.bool false)
    ∧ (∀ (s : String) (d : JSValue) (n : Int),
        jsNumberOfString? s = some n → parseEventArgs s d = JSValue.num n)
    ∧ (∀ (s mid : String) (d : JSValue),
        quotedMid? s = some mid → jsNumberOfString? s = none →
        parseEventArgs s d = JSValue.str mid)
    ∧ (∀ (arg : String) (fs : List (String × JSValue)),
        isIdentString arg = true → arg ≠ "true" → arg ≠ "false" → arg ≠ "Infinity" →
        (∀ v : JSValue, getField fs arg = some v → truthy v = true →
            parseEventArgs arg (JSValue.obj fs) = v)
        ∧ (getField fs arg = none →
            parseEventArgs arg (JSValue.obj fs) = JSValue.str arg)) := by
  refine ⟨fun d => ⟨rfl, rfl⟩, ?_, ?_, ?_⟩
  · intro s d n h
    have h1 : ¬s = "true" := by
      intro he; rw [he] at h
      rw [(rfl : jsNumberOfString? "true" = none)] at h
      cases h
    have h2 : ¬s = "false" := by
      intro he; rw [he] at h
      rw [(rfl : jsNumberOfString? "false" = none)] at h
      cases h
    unfold parseEventArgs
    rw [if_neg h1, if_neg h2, h]
  · intro s mid d hq hnum
    have h1 : ¬s = "true" := by
      intro he; rw [he] at hq
      rw [(rfl : quotedMid? "true" = none)] at hq
      cases hq
    have h2 : ¬s = "false" := by
      intro he; rw [he] at hq
      rw [(rfl : quotedMid? "false" = none)] at hq
      cases hq
    unfold parseEventArgs
    rw [if_neg h1, if_neg h2, hnum, hq]
  · intro arg fs hid htrue hfalse _
    have hshape : ∃ c cs, arg.data = c :: cs ∧ isIdentStart c = true := by
      unfold isIdentString at hid
      rcases hd : arg.data with _ | ⟨c, cs⟩
      · rw [hd] at hid; cases hid
      · rw [hd] at hid
        simp only [Bool.and_eq_true] at hid
        exact ⟨c, cs, rfl, hid.1⟩
    obtain ⟨c, cs, hdata, hstart⟩ := hshape
    obtain ⟨hws, hplus, hminus, hdig, hquote⟩ := identStart_props hstart
    have hnum : jsNumberOfString? arg = none :=
      jsNumber_none_of_head arg c cs hdata hws hplus hminus hdig
    have hq : quotedMid? arg = none := by
      unfold quotedMid?
      rw [hdata, quotedMidAux, if_neg (by simp [hquote])]
    constructor
    · intro v hget htr
      unfold parseEventArgs
      rw [if_neg htrue, if_neg hfalse]
      simp only [hnum, hq, hget, htr, if_true]
    · intro hget
      unfold parseEventArgs
      rw [if_neg htrue, if_neg hfalse]
      simp only [hnum, hq, hget]

/-- Witness for C8: `"42"` parses numerically; the identifier `"x"`
resolves to a present truthy value, and falls back to its literal text
when absent. -/
theorem c8_parse_event_args_witness :
    parseEventArgs "42" (JSValue.obj []) = JSValue.num 42
    ∧ parseEventArgs "x" (JSValue.obj [("x", JSValue.num 5)]) = JSValue.num 5
    ∧ parseEventArgs "x" (JSValue.obj []) = JSValue.str "x" :=
  ⟨c8_parse_event_args.2.1 "42" (JSValue.obj []) 42 rfl,
   (c8_parse_event_args.2.2.2 "x" [("x", JSValue.num 5)] rfl
      (by decide) (by decide) (by decide)).1 (JSValue.num 5) rfl rfl,
   (c8_parse_event_args.2.2.2 "x" [] rfl
      (by decide) (by decide) (by decide)).2 rfl⟩

/-- Counterexample to C8 as stated: the identifier `"x"` with the
present but falsy value `0` does not resolve to `0` — `data[arg] || arg`
falls back to the literal text `"x"`. -/
theorem c8_counterexample :
    parseEventArgs "x" (JSValue.obj [("x", JSValue.num 0)]) = JSValue.str "x"
    ∧ JSValue.str "x" ≠ JSValue.num 0 :=
  ⟨rfl, fun h => JSValue.noConfusion h⟩

/-! ### Filter registration order (claim C6) -/

theorem mem_insertE {y e : FilterEntry} :
    ∀ {l : List FilterEntry}, y ∈ insertE e l → y = e ∨ y ∈ l := by
  intro l
  induction l with
  | nil =>
      intro h
      simp only [insertE, List.mem_singleton] at h
      exact Or.inl h
  | cons x xs ih =>
      intro h
      by_cases hx : x.2 ≤ e.2
      · simp only [insertE, if_pos hx] at h
        rcases List.mem_cons.mp h with h1 | h1
        · exact Or.inr (by simp [h1])
        · rcases ih h1 with h2 | h2
          · exact Or.inl h2
          · exact Or.inr (List.mem_cons_of_mem _ h2)
      · simp only [insertE, if_neg hx] at h
        rcases List.mem_cons.mp h with h1 | h1
        · exact Or.inl h1
        · exact Or.inr h1

theorem insertE_sorted {e : FilterEntry} :
    ∀ {l : List FilterEntry}, List.Pairwise (fun a b : FilterEntry => a.2 ≤ b.2) l →
    List.Pairwise (fun a b : FilterEntry => a.2 ≤ b.2) (insertE e l) := by
  intro l
  induction l with
  | nil => intro _; simp [insertE]
  | cons x xs ih =>
      intro hp
      rcases List.pairwise_cons.mp hp with ⟨hx, hxs⟩
      by_cases hle : x.2 ≤ e.2
      · simp only [insertE, if_pos hle]
        refine List.pairwise_cons.mpr ⟨?_, ih hxs⟩
        intro y hy
        rcases mem_insertE hy with h1 | h1
        · rw [h1]; exact hle
        · exact hx y h1
      · simp only [insertE, if_neg hle]
        refine List.pairwise_cons.mpr ⟨?_, hp⟩
        intro y hy
        rcases List.mem_cons.mp hy with h1 | h1
        · rw [h1]; omega
        · have h2 := hx y h1
          omega

theorem foldl_insertE_sorted :
    ∀ (l acc : List FilterEntry),
    List.Pairwise (fun a b : FilterEntry => a.2 ≤ b.2) acc →
    List.Pairwise (fun a b : FilterEntry => a.2 ≤ b.2)
      (List.foldl (fun a x => insertE x a) acc l) := by
  intro l
  induction l with
  | nil => intro acc h; exact h
  | cons x xs ih =>
      intro acc h
      simp only [List.foldl_cons]
      exact ih _ (insertE_sorted h)

theorem jsSort_sorted (l : List FilterEntry) :
    List.Pairwise (fun a b : FilterEntry => a.2 ≤ b.2) (jsSortByPriority l) :=
  foldl_insertE_sorted l [] (by simp)

theorem insertE_append {x : FilterEntry} :
    ∀ {acc : List FilterEntry}, (∀ a ∈ acc, a.2 ≤ x.2) → insertE x acc = acc ++ [x] := by
  intro acc
  induction acc with
  | nil => intro _; rfl
  | cons a as ih =>
      intro h
      have ha : a.2 ≤ x.2 := h a (by simp)
      simp only [insertE, if_pos ha, List.cons_append]
      rw [ih (fun b hb => h b (by simp [hb]))]

theorem foldl_insertE_of_sorted :
    ∀ (l acc : List FilterEntry),
    List.Pairwise (fun a b : FilterEntry => a.2 ≤ b.2) (acc ++ l) →
    List.foldl (fun a x => insertE x a) acc l = acc ++ l := by
  intro l
  induction l with
  | nil => intro acc _; simp
  | cons x xs ih =>
      intro acc hp
      have hax : ∀ a ∈ acc, a.2 ≤ x.2 := by
        intro a ha
        exact (List.pairwise_append.mp hp).2.2 a ha x (by simp)
      simp only [List.foldl_cons]
      rw [insertE_append hax]
      have hassoc : (acc ++ [x]) ++ xs = acc ++ x :: xs := by simp
      rw [ih (acc ++ [x]) (by rw [hassoc]; exact hp), hassoc]

theorem jsSort_of_sorted {l : List FilterEntry}
    (h : List.Pairwise (fun a b : FilterEntry => a.2 ≤ b.2) l) :
    jsSortByPriority l = l := by
  have := foldl_insertE_of_sorted l [] (by simpa)
  simpa [jsSortByPriority] using this

theorem jsSort_append_single (l : List FilterEntry) (x : FilterEntry) :
    jsSortByPriority (l ++ [x]) = insertE x (jsSortByPriority l) := by
  unfold jsSortByPriority
  rw [List.foldl_append]
  rfl

theorem registerAll_eq_sort : ∀ regs : List FilterEntry,
    registerAll regs = jsSortByPriority regs := by
  suffices h : ∀ (regs pre : List FilterEntry),
      List.foldl addFilterModel (jsSortByPriority pre) regs = jsSortByPriority (pre ++ regs) by
    intro regs
    have h0 := h regs []
    simpa [registerAll, jsSortByPriority] using h0
  intro regs
  induction regs with
  | nil => intro pre; simp
  | cons r rs ih =>
      intro pre
      simp only [List.foldl_cons]
      have hstep : addFilterModel (jsSortByPriority pre) r = jsSortByPriority (pre ++ [r]) := by
        unfold addFilterModel
        rw [jsSort_append_single, jsSort_append_single,
          jsSort_of_sorted (jsSort_sorted pre)]
      rw [hstep, ih (pre ++ [r])]
      simp

theorem filter_insertE_eq (q : Int) (e : FilterEntry) (he : e.2 = q) :
    ∀ l : List FilterEntry,
    List.Pairwise (fun a b : FilterEntry => a.2 ≤ b.2) l →
    (insertE e l).filter (fun x => decide (x.2 = q)) =
      l.filter (fun x => decide (x.2 = q)) ++ [e] := by
  intro l
  induction l with
  | nil => intro _; simp [insertE, he]
  | cons x xs ih =>
      intro hp
      rcases List.pairwise_cons.mp hp with ⟨hx, hxs⟩
      by_cases hle : x.2 ≤ e.2
      · simp only [insertE, if_pos hle, List.filter_cons]
        rw [ih hxs]
        by_cases hq : x.2 = q <;> simp [hq]
      · have hxq : ¬x.2 = q := by omega
        have hxsq : xs.filter (fun x => decide (x.2 = q)) = [] := by
          rw [List.filter_eq_nil_iff]
          intro a ha
          have h2 := hx a ha
          simp only [decide_eq_true_eq]
          omega
        simp only [insertE, if_neg hle, List.filter_cons]
        simp [he, hxq, hxsq]

theorem filter_insertE_ne (q : Int) (e : FilterEntry) (he : ¬e.2 = q) :
    ∀ l : List FilterEntry,
    (insertE e l).filter (fun x => decide (x.2 = q)) =
      l.filter (fun x => decide (x.2 = q)) := by
  intro l
  induction l with
  | nil => simp [insertE, he]
  | cons x xs ih =>
      by_cases hle : x.2 ≤ e.2
      · simp only [insertE, if_pos hle, List.filter_cons]
        by_cases hq : x.2 = q <;> simp [hq, ih]
      · simp only [insertE, if_neg hle, List.filter_cons]
        simp [he]

theorem filter_jsSort (q : Int) : ∀ l : List FilterEntry,
    (jsSortByPriority l).filter (fun x => decide (x.2 = q)) =
      l.filter (fun x => decide (x.2 = q)) := by
  intro l
  induction l using List.reverseRecOn with
  | nil => rfl
  | append_singleton l x ih =>
      rw [jsSort_append_single]
      by_cases hx : x.2 = q
      · rw [filter_insertE_eq q x hx _ (jsSort_sorted l), ih]
        simp [List.filter_append, hx]
      · rw [filter_insertE_ne q x hx, ih]
        simp [List.filter_append, hx]

/-- C6: after any sequence of registrations under one name, the chain —
and hence `applyFilter`'s left-to-right invocation order — is sorted by
ascending priority, and the subsequence of entries at any fixed
priority equals that priority's registration subsequence (stable ties);
in particular registrations at priorities 5, 1, 3 are invoked in
priority order 1, 3, 5 under every one of the six registration
orders. -/
theorem c6_filter_priority_order :
    (∀ regs : List FilterEntry,
      List.Pairwise (fun a b : FilterEntry => a.2 ≤ b.2) (registerAll regs))
    ∧ (∀ (regs : List FilterEntry) (q : Int),
      (registerAll regs).filter (fun x => decide (x.2 = q)) =
        regs.filter (fun x => decide (x.2 = q)))
    ∧ (∀ f g h : Nat,
      applyOrder (registerAll [(f, 5), (g, 1), (h, 3)]) = [g, h, f]
      ∧ applyOrder (registerAll [(f, 5), (h, 3), (g, 1)]) = [g, h, f]
      ∧ applyOrder (registerAll [(g, 1), (f, 5), (h, 3)]) = [g, h, f]
      ∧ applyOrder (registerAll [(g, 1), (h, 3), (f, 5)]) = [g, h, f]
      ∧ applyOrder (registerAll [(h, 3), (f, 5), (g, 1)]) = [g, h, f]
      ∧ applyOrder (registerAll [(h, 3), (g, 1), (f, 5)]) = [g, h, f]) := by
  refine ⟨?_, ?_, ?_⟩
  · intro regs
    rw [registerAll_eq_sort]
    exact jsSort_sorted regs
  · intro regs q
    rw [registerAll_eq_sort]
    exact filter_jsSort q regs
  · intro f g h
    exact ⟨rfl, rfl, rfl, rfl, rfl, rfl⟩

/-! ### Context-identifier allocation (claims C9 and C2)

The invariant: one engine call never decreases the counter and stores
contexts under exactly the consecutive counter values it passed. -/

/-- Allocation specification of one engine call starting at counter
`c`: result counter is at least `c` and the stored identifiers are
exactly `c, c+1, ..., result counter - 1`, in order. -/
def IdSpec (c : Nat) (r : String × Nat × List (Nat × JSValue)) : Prop :=
  c ≤ r.2.1 ∧ r.2.2.map Prod.fst = List.range' c (r.2.1 - c)

theorem range1_append (a m n : Nat) :
    List.range' a m ++ List.range' (a + m) n = List.range' a (m + n) := by
  have h := List.range'_append a m n 1
  simp only [one_mul] at h
  rw [h, Nat.add_comm]

theorem IdSpec.base (c : Nat) (s : String) : IdSpec c (s, c, []) :=
  ⟨le_refl c, by simp⟩

theorem IdSpec.comp {c : Nat} {r1 r2 : String × Nat × List (Nat × JSValue)} (s : String)
    (h1 : IdSpec c r1) (h2 : IdSpec r1.2.1 r2) :
    IdSpec c (s, r2.2.1, r1.2.2 ++ r2.2.2) := by
  obtain ⟨hc1, hm1⟩ := h1
  obtain ⟨hc2, hm2⟩ := h2
  refine ⟨le_trans hc1 hc2, ?_⟩
  simp only [List.map_append, hm1, hm2]
  have h := range1_append c (r1.2.1 - c) (r2.2.1 - r1.2.1)
  rw [show c + (r1.2.1 - c) = r1.2.1 by omega] at h
  rw [h, show r1.2.1 - c + (r2.2.1 - r1.2.1) = r2.2.1 - c by omega]

theorem IdSpec.alloc {c : Nat} {rb rest : String × Nat × List (Nat × JSValue)}
    (s : String) (x : JSValue)
    (h1 : IdSpec c rb) (h2 : IdSpec (rb.2.1 + 1) rest) :
    IdSpec c (s, rest.2.1, rb.2.2 ++ (rb.2.1, x) :: rest.2.2) := by
  obtain ⟨hc1, hm1⟩ := h1
  obtain ⟨hc2, hm2⟩ := h2
  refine ⟨show c ≤ rest.2.1 by omega, ?_⟩
  show (rb.2.2 ++ (rb.2.1, x) :: rest.2.2).map Prod.fst = _
  simp only [List.map_append, List.map_cons, hm1, hm2]
  have hcons : (rb.2.1 : Nat) :: List.range' (rb.2.1 + 1) (rest.2.1 - (rb.2.1 + 1)) =
      List.range' rb.2.1 (rest.2.1 - rb.2.1) := by
    rw [show rest.2.1 - rb.2.1 = (rest.2.1 - (rb.2.1 + 1)) + 1 by omega]
    rfl
  rw [hcons]
  have h := range1_append c (rb.2.1 - c) (rest.2.1 - rb.2.1)
  rw [show c + (rb.2.1 - c) = rb.2.1 by omega] at h
  rw [h, show rb.2.1 - c + (rest.2.1 - rb.2.1) = rest.2.1 - c by omega]

theorem engine_IdSpec : ∀ fuel : Nat,
    (∀ (tpl : String) (data : JSValue) (c : Nat), IdSpec c (substituteF fuel tpl data c))
    ∧ (∀ (toks : List Tok) (data : JSValue) (c : Nat), IdSpec c (substToks fuel toks data c))
    ∧ (∀ (tpl : String) (fs : List (String × JSValue)) (c : Nat),
        IdSpec c (iterEntries fuel tpl fs c)) := by
  intro fuel
  induction fuel with
  | zero =>
      refine ⟨fun tpl data c => IdSpec.base c "", fun toks data c => ?_, fun tpl fs c => ?_⟩
      · cases toks with
        | nil => exact IdSpec.base c ""
        | cons t ts => exact IdSpec.base c ""
      · cases fs with
        | nil => exact IdSpec.base c ""
        | cons f fs => exact IdSpec.base c ""
  | succ fuel ih =>
      obtain ⟨ihF, ihT, ihI⟩ := ih
      refine ⟨fun tpl data c => ihT _ data c, fun toks data c => ?_, fun tpl fs c => ?_⟩
      · cases toks with
        | nil => exact IdSpec.base c ""
        | cons t rest =>
            cases t with
            | static s =>
                have hr := ihT rest data c
                exact ⟨hr.1, hr.2⟩
            | tok flag name =>
                by_cases hflag : flag = "/"
                · simp only [substToks, if_pos hflag]
                  exact ihT rest data c
                · simp only [substToks, if_neg hflag]
                  rcases hfc : findClose name rest with _ | ⟨inner, after⟩
                  · simp only [hfc]
                    have hr := ihT rest data c
                    exact ⟨hr.1, hr.2⟩
                  · simp only [hfc]
                    rcases hsub : resolveToken name data with _ | _ | b | n | str | fs
                    · -- null: iteration over zero keys
                      exact IdSpec.comp _ (ihI (innerTemplateOf inner) [] c)
                        (ihT after data _)
                    · have hr := ihT after data c
                      exact ⟨hr.1, hr.2⟩
                    · -- boolean block
                      refine IdSpec.comp _ ?_ (ihT after data _)
                      cases b
                      · exact IdSpec.base c ""
                      · exact ihF (innerTemplateOf inner) data c
                    · have hr := ihT after data c
                      exact ⟨hr.1, hr.2⟩
                    · have hr := ihT after data c
                      exact ⟨hr.1, hr.2⟩
                    · -- object: iteration
                      exact IdSpec.comp _ (ihI (innerTemplateOf inner) fs c)
                        (ihT after data _)
      · cases fs with
        | nil => exact IdSpec.base c ""
        | cons kv fs =>
            obtain ⟨key, v⟩ := kv
            exact IdSpec.alloc _ (JSValue.obj (loopDataOf key v))
              (ihF tpl (JSValue.obj (loopDataOf key v)) c)
              (ihI tpl fs ((substituteF fuel tpl (JSValue.obj (loopDataOf key v)) c).2.1 + 1))

theorem runRenders_IdSpec : ∀ (rs : List (Nat × String × JSValue)) (c : Nat),
    c ≤ (runRenders rs c).2 ∧
    (runRenders rs c).1.map Prod.fst = List.range' c ((runRenders rs c).2 - c) := by
  intro rs
  induction rs with
  | nil => intro c; exact ⟨le_refl c, by simp [runRenders]⟩
  | cons r rs ih =>
      intro c
      obtain ⟨fuel, tpl, data⟩ := r
      obtain ⟨hc1, hm1⟩ := (engine_IdSpec fuel).1 tpl data c
      obtain ⟨hc2, hm2⟩ := ih (substituteF fuel tpl data c).2.1
      refine ⟨by simpa [runRenders] using le_trans hc1 hc2, ?_⟩
      show ((substituteF fuel tpl data c).2.2 ++
          (runRenders rs (substituteF fuel tpl data c).2.1).1).map Prod.fst = _
      simp only [List.map_append, hm1, hm2]
      have h := range1_append c ((substituteF fuel tpl data c).2.1 - c)
        ((runRenders rs (substituteF fuel tpl data c).2.1).2 - (substituteF fuel tpl data c).2.1)
      rw [show c + ((substituteF fuel tpl data c).2.1 - c) = (substituteF fuel tpl data c).2.1
        by omega] at h
      rw [h]
      show _ = List.range' c ((runRenders rs (substituteF fuel tpl data c).2.1).2 - c)
      rw [show (substituteF fuel tpl data c).2.1 - c +
          ((runRenders rs (substituteF fuel tpl data c).2.1).2 - (substituteF fuel tpl data c).2.1) =
          (runRenders rs (substituteF fuel tpl data c).2.1).2 - c by omega]

/-- C9: across every sequence of render passes sharing the runtime's
counter — e.g. repeated re-renders of one or several mounted instances
— the context identifiers are allocated as the consecutive counter
values `c, c+1, ...`; consequently each entry's identifier is strictly
greater than every previously assigned one (monotonically increasing),
so identifiers are globally unique and never recycled. -/
theorem c9_context_ids_monotone :
    ∀ (rs : List (Nat × String × JSValue)) (c : Nat),
    (runRenders rs c).1.map Prod.fst = List.range' c ((runRenders rs c).2 - c)
    ∧ List.Pairwise (fun a b : Nat => a < b) ((runRenders rs c).1.map Prod.fst) := by
  intro rs c
  have h := runRenders_IdSpec rs c
  refine ⟨h.2, ?_⟩
  rw [h.2]
  exact List.pairwise_lt_range' c _

/-- C2 (amended): the render output is a function of the template, the
data and the incoming counter alone, so rendering the same template
against the same data twice yields byte-identical markup whenever the
first render allocated no iteration context (left the counter
unchanged) — equivalently, whenever it stored no contexts.  A template
whose rendering allocates an entry embeds the fresh identifier in its
output, so the two passes differ exactly there (see the
counterexample). -/
theorem c2_render_repeat_identical :
    ∀ (fuel : Nat) (tpl : String) (data : JSValue) (c : Nat),
    (substituteF fuel tpl data c).2.1 = c →
    (substituteF fuel tpl data ((substituteF fuel tpl data c).2.1)).1 =
      (substituteF fuel tpl data c).1
    ∧ (substituteF fuel tpl data c).2.2 = [] := by
  intro fuel tpl data c h
  constructor
  · rw [h]
  · have hm := ((engine_IdSpec fuel).1 tpl data c).2
    rw [h, Nat.sub_self] at hm
    exact List.map_eq_nil_iff.mp hm

/-- Witness for C2: a template with plain interpolation only allocates
nothing and repeats byte-identically. -/
theorem c2_render_repeat_identical_witness :
    (substituteF 10 "hi [name]" (JSValue.obj [("name", JSValue.str "Bob")])
        ((substituteF 10 "hi [name]" (JSValue.obj [("name", JSValue.str "Bob")]) 0).2.1)).1 =
      (substituteF 10 "hi [name]" (JSValue.obj [("name", JSValue.str "Bob")]) 0).1
    ∧ (substituteF 10 "hi [name]" (JSValue.obj [("name", JSValue.str "Bob")]) 0).2.2 = [] :=
  c2_render_repeat_identical 10 "hi [name]" (JSValue.obj [("name", JSValue.str "Bob")]) 0 rfl

/-- Counterexample to C2 as stated: an iteration template renders with
a fresh `data-potion-key` identifier on each pass, so the second render
from the state the first left behind is not byte-identical. -/
theorem c2_counterexample :
    (substituteF 10 "[items]<li>a</li>[/items]"
        (JSValue.obj [("items", JSValue.obj [("k", JSValue.obj [])])]) 0).1 ≠
      (substituteF 10 "[items]<li>a</li>[/items]"
        (JSValue.obj [("items", JSValue.obj [("k", JSValue.obj [])])])
        ((substituteF 10 "[items]<li>a</li>[/items]"
          (JSValue.obj [("items", JSValue.obj [("k", JSValue.obj [])])]) 0).2.1)).1 := by
  decide

end Honey
